import Mathlib

/-!
Shallow embedding of the go-cfgreader library (src/cfgreader.go, src/common.go).

Go strings are modelled as `List Char` (`GoStr`); Go maps used only through
insert/lookup are modelled as functions into `Option`; the `FormatMap`
argument of `RegisterFormats`, which the Go code iterates, is modelled as an
association list (Go map iteration order is unspecified, the list fixes one
order; the default formats have disjoint keys and extensions so the order is
immaterial there).  Filesystem reads are modelled by explicit data: an
abstract `ReadFileFn` for `os.ReadFile`, and an `FsEntry` tree for directory
listings and `filepath.WalkDir`.  Errors built with `fmt.Errorf` are modelled
as inductive error values carrying the same data that the format strings
interpolate.
-/

namespace CfgReader

/-- Go `string`, modelled as a list of characters. -/
abbrev GoStr := List Char

/-- Shorthand for writing `GoStr` literals. -/
def str (s : String) : GoStr := s.toList

/-- ASCII case-lowering of one character, modelling what Go's
`strings.ToLower` does on the ASCII range (all strings in this development
are ASCII). -/
def toLowerChar (c : Char) : Char :=
  if 'A' ≤ c ∧ c ≤ 'Z' then Char.ofNat (c.toNat + 32) else c

/-- Go `strings.ToLower` (ASCII model). -/
def toLower (s : GoStr) : GoStr := s.map toLowerChar

/-- Index of the last `'.'` in a string, or `none`: models Go
`strings.LastIndex(filename, ".")` (with `none` for `-1`). -/
def lastDotIndex : GoStr → Option Nat
  | [] => none
  | c :: rest =>
    match lastDotIndex rest with
    | some i => some (i + 1)
    | none => if c = '.' then some 0 else none

/-- Model of `baseName` from src/common.go: drop the final extension unless the last
dot is missing or at index 0. -/
def baseName (filename : GoStr) : GoStr :=
  match lastDotIndex filename with
  | some lastDot => if lastDot ≠ 0 then filename.take lastDot else filename
  | none => filename

/-- Helper for `goExt`: scans the reversed path; `acc` holds the characters
already passed, in original order. -/
def goExtAux (acc : GoStr) : GoStr → GoStr
  | [] => []
  | c :: rest =>
    if c = '/' then []
    else if c = '.' then '.' :: acc
    else goExtAux (c :: acc) rest

/-- Go `filepath.Ext`: the suffix starting at the final dot in the final
path element (searching back to the last `'/'`), or empty if there is no
such dot.  Note Go has no special case for a dot at index 0: `Ext ".yaml"`
is `".yaml"`. -/
def goExt (path : GoStr) : GoStr := goExtAux [] path.reverse

/-- Model of `filepath.Join(dir, name)` for the cleaned, non-empty directory paths
this development uses. -/
def joinPath (dir name : GoStr) : GoStr := dir ++ '/' :: name

/-- Index of the last `'/'` in a path, or `none`. -/
def lastSlashIndex : GoStr → Option Nat
  | [] => none
  | c :: rest =>
    match lastSlashIndex rest with
    | some i => some (i + 1)
    | none => if c = '/' then some 0 else none

/-- Model of `filepath.Dir` for paths whose parent is not the filesystem root. -/
def dirName (path : GoStr) : GoStr :=
  match lastSlashIndex path with
  | some i => path.take i
  | none => ['.']

/-! ## Format registry -/

/-- A `ConfigFormat` is a Go `int` enum; values beyond the built-ins are legal
user-defined formats. -/
abbrev ConfigFormat := Nat

def FormatUnknown : ConfigFormat := 0
def FormatYAML : ConfigFormat := 1
def FormatJSON : ConfigFormat := 2
def DefaultFormatsCount : ConfigFormat := 3

/-- Model of `UnmarshalFunc`: Go `func(data []byte, v any) error`, modelled as bytes
in, value or error message out. -/
abbrev UnmarshalFunc (T : Type) := GoStr → Except GoStr T

/-- Model of `FormatData`.  `Unmarshal` is `none` when the Go field is the nil
function (as in the default entry for the unknown format). -/
structure FormatData (T : Type) where
  Name : GoStr
  Extensions : List GoStr
  Unmarshal : Option (UnmarshalFunc T)

/-- The Go `FormatMap` value passed to `RegisterFormats`, as an association
list (see the header note on iteration order). -/
abbrev FormatList (T : Type) := List (ConfigFormat × FormatData T)

/-- Model of `DefaultFormats`, parameterised by the external `yaml.Unmarshal` and
`json.Unmarshal` deserializers. -/
def DefaultFormats (T : Type) (yamlUnmarshal jsonUnmarshal : UnmarshalFunc T) :
    FormatList T :=
  [ (FormatUnknown, ⟨str "unknown", [[]], none⟩),
    (FormatYAML, ⟨str "yaml", [str ".yaml", str ".yml"], some yamlUnmarshal⟩),
    (FormatJSON, ⟨str "json", [str ".json"], some jsonUnmarshal⟩) ]

/-- The `ConfigReader[T]` struct (the logger is observability only and is
not modelled). -/
structure ConfigReader (T : Type) where
  defaultPath : GoStr
  supportedExts : GoStr → Option ConfigFormat
  formats : ConfigFormat → Option (FormatData T)
  strictMode : Bool
  maxFileSize : Int
  recursive : Bool

/-- Functional option `WithStrictMode`. -/
def WithStrictMode (T : Type) (strict : Bool) (cr : ConfigReader T) : ConfigReader T :=
  { cr with strictMode := strict }

/-- Functional option `WithMaxFileSize`. -/
def WithMaxFileSize (T : Type) (size : Int) (cr : ConfigReader T) : ConfigReader T :=
  { cr with maxFileSize := size }

/-- Functional option `WithDefaultPath`. -/
def WithDefaultPath (T : Type) (path : GoStr) (cr : ConfigReader T) : ConfigReader T :=
  { cr with defaultPath := path }

/-- Functional option `WithRecursive`. -/
def WithRecursive (T : Type) (recursive : Bool) (cr : ConfigReader T) : ConfigReader T :=
  { cr with recursive := recursive }

/-- Model of `RegisterFormats`: for each format, map each of its lower-cased
extensions to the format id, then copy the entries into the catalog
(`maps.Copy`). -/
def RegisterFormats (T : Type) (cr : ConfigReader T) (formats : FormatList T) :
    ConfigReader T :=
  { cr with
    supportedExts :=
      formats.foldl
        (fun m p =>
          p.2.Extensions.foldl
            (fun m ext => fun k => if k = toLower ext then some p.1 else m k) m)
        cr.supportedExts
    formats :=
      formats.foldl (fun fm p => fun k => if k = p.1 then some p.2 else fm k)
        cr.formats }

/-- Model of `NewConfigReader`: defaults, then the default format registration, then
the functional options in order. -/
def NewConfigReader (T : Type) (yamlUnmarshal jsonUnmarshal : UnmarshalFunc T)
    (opts : List (ConfigReader T → ConfigReader T)) : ConfigReader T :=
  let cr : ConfigReader T :=
    { defaultPath := str "/etc/config"
      supportedExts := fun _ => none
      formats := fun _ => none
      strictMode := false
      maxFileSize := 10 * 1024 * 1024
      recursive := false }
  let cr := RegisterFormats T cr (DefaultFormats T yamlUnmarshal jsonUnmarshal)
  opts.foldl (fun c o => o c) cr

/-- Model of `detectFormat`: lower-case the filename's `filepath.Ext` and look it up;
a miss yields `FormatUnknown`. -/
def detectFormat (T : Type) (cr : ConfigReader T) (filename : GoStr) : ConfigFormat :=
  let ext := toLower (goExt filename)
  match cr.supportedExts ext with
  | some format => format
  | none => FormatUnknown

/-! ## Single-file loader -/

/-- The fields of `fs.FileInfo` the loader reads. -/
structure FileInfo where
  name : GoStr
  size : Int
  isDir : Bool

/-- Model of `os.ReadFile`, abstracted: full path to content bytes or a read error. -/
abbrev ReadFileFn := GoStr → Except GoStr GoStr

/-- The distinguishable errors produced by `readAndParseFile` and
`processFile` (each constructor carries the data its `fmt.Errorf` format
string interpolates). -/
inductive ProcError where
  /-- Error "path is a directory". -/
  | isDirectory
  /-- Error "file size %d exceeds maximum allowed size %d". -/
  | tooLarge (size maxSize : Int)
  /-- Error "unsupported file format". -/
  | unsupportedFormat
  /-- Error "failed to read file: %w". -/
  | readFailed (msg : GoStr)
  /-- Error "no registered format: %s". -/
  | noRegisteredFormat (name : GoStr)
  /-- Go would call the nil `Unmarshal` function; unreachable for formats
  registered with a real deserializer. -/
  | nilUnmarshal
  /-- Error "failed to unmarshal %s: %w". -/
  | parseError (formatName msg : GoStr)
  deriving DecidableEq, Repr

/-- Model of `readAndParseFile`: read the bytes, look the format up in the catalog,
unmarshal. -/
def readAndParseFile (T : Type) (cr : ConfigReader T) (readFile : ReadFileFn)
    (fullPath : GoStr) (format : ConfigFormat) : Except ProcError T :=
  match readFile fullPath with
  | .error e => .error (.readFailed e)
  | .ok data =>
    match cr.formats format with
    | none =>
      -- Go reports the zero-value `formatItem.Name`, i.e. the empty string.
      .error (.noRegisteredFormat [])
    | some formatItem =>
      match formatItem.Unmarshal with
      | none => .error .nilUnmarshal
      | some unmarshal =>
        match unmarshal data with
        | .error e => .error (.parseError formatItem.Name e)
        | .ok cfg => .ok cfg

/-- The `(*T, string, error)` triple returned by `processFile`. -/
structure ProcResult (T : Type) where
  cfg : Option T
  name : GoStr
  err : Option ProcError
  deriving Repr

/-- Model of `processFile`: directory check, size ceiling, format detection, then
read-and-parse.  The name component is `baseName filename` on the first
three failure paths and on success, and empty on a read/parse failure. -/
def processFile (T : Type) (cr : ConfigReader T) (readFile : ReadFileFn)
    (fullPath : GoStr) (info : FileInfo) : ProcResult T :=
  let filename := info.name
  if info.isDir then
    ⟨none, baseName filename, some .isDirectory⟩
  else if info.size > cr.maxFileSize then
    ⟨none, baseName filename, some (.tooLarge info.size cr.maxFileSize)⟩
  else
    let format := detectFormat T cr info.name
    if format = FormatUnknown then
      ⟨none, baseName filename, some .unsupportedFormat⟩
    else
      match readAndParseFile T cr readFile fullPath format with
      | .error e => ⟨none, [], some e⟩
      | .ok cfg => ⟨some cfg, baseName filename, none⟩

/-! ## Directory scanning -/

/-- The fields of `fs.DirEntry` the scanner reads; `infoRes` is the result
of `entry.Info()`. -/
structure DirEntry where
  name : GoStr
  isDir : Bool
  infoRes : Except GoStr FileInfo

/-- A filesystem subtree: what `os.Stat` reports for the node (`infoRes`),
and, for directories, the listing `os.ReadDir` can deliver (`entries`)
together with the listing error if the directory cannot be (fully) listed
(`listErr`; Go's `os.ReadDir` returns the entries read before the error
alongside the error). -/
inductive FsEntry where
  | node (name : GoStr) (isDir : Bool) (infoRes : Except GoStr FileInfo)
      (entries : List FsEntry) (listErr : Option GoStr)

def FsEntry.name : FsEntry → GoStr
  | .node n _ _ _ _ => n

def FsEntry.isDir : FsEntry → Bool
  | .node _ d _ _ _ => d

def FsEntry.infoRes : FsEntry → Except GoStr FileInfo
  | .node _ _ i _ _ => i

def FsEntry.entries : FsEntry → List FsEntry
  | .node _ _ _ es _ => es

def FsEntry.listErr : FsEntry → Option GoStr
  | .node _ _ _ _ e => e

/-- The `fs.DirEntry` view of a tree node. -/
def FsEntry.toDirEntry (e : FsEntry) : DirEntry :=
  ⟨e.name, e.isDir, e.infoRes⟩

/-- Model of `scanStats`. -/
structure ScanStats where
  processed : Nat
  skipped : Nat
  errors : Nat
  deriving DecidableEq, Repr

/-- The distinguishable errors a directory scan can return (each constructor
carries the data its `fmt.Errorf` format string interpolates). -/
inductive ScanErr where
  /-- Error of scanFlat, "failed to read directory: %w". -/
  | readDirFailed (msg : GoStr)
  /-- Error of scanRecursive, "strict mode: failed to access %s: %w". -/
  | accessFailed (path msg : GoStr)
  /-- Error of processEntry, "strict mode: failed to get info for %s: %w". -/
  | infoFailed (filename msg : GoStr)
  /-- Error of processEntry, "strict mode: failed to process %s: %w". -/
  | processFailed (filename : GoStr) (e : ProcError)
  /-- Error of processEntry, "strict mode: duplicate service name %s in file %s" (the service name is quoted in the Go format string). -/
  | duplicateName (service filename : GoStr)
  /-- Error of ReadDirMap, "configuration directory inaccessible: %w". -/
  | statFailed (msg : GoStr)
  /-- Error of ReadDirMap, "path is not a directory, use ReadFile instead". -/
  | notADirectory
  deriving DecidableEq, Repr

/-- The result map being accumulated (`map[string]*T`). -/
abbrev CfgMap (T : Type) := GoStr → Option T

/-- Model of `processEntry`: one directory entry; returns the updated map and stats
together with the error that aborts the scan (only ever `some` in strict
mode). -/
def processEntry (T : Type) (cr : ConfigReader T) (readFile : ReadFileFn)
    (parentDir : GoStr) (entry : DirEntry) (configs : CfgMap T)
    (stats : ScanStats) : CfgMap T × ScanStats × Option ScanErr :=
  let filename := entry.name
  let fullPath := joinPath parentDir filename
  match entry.infoRes with
  | .error e =>
    let stats := { stats with errors := stats.errors + 1 }
    if cr.strictMode then
      (configs, stats, some (.infoFailed filename e))
    else
      (configs, { stats with skipped := stats.skipped + 1 }, none)
  | .ok info =>
    let r := processFile T cr readFile fullPath info
    match r.err with
    | some e =>
      let stats := { stats with errors := stats.errors + 1 }
      if cr.strictMode then
        (configs, stats, some (.processFailed filename e))
      else
        (configs, { stats with skipped := stats.skipped + 1 }, none)
    | none =>
      match r.cfg with
      | none => (configs, { stats with skipped := stats.skipped + 1 }, none)
      | some cfg =>
        if (configs r.name).isSome ∧ cr.strictMode then
          (configs, stats, some (.duplicateName r.name filename))
        else
          (fun k => if k = r.name then some cfg else configs k,
           { stats with processed := stats.processed + 1 }, none)

/-- The entry loop of `scanFlat`: directories are counted as skipped; a
`processEntry` error aborts only under strict mode (mirroring the nested
`if` in the source). -/
def scanFlatLoop (T : Type) (cr : ConfigReader T) (readFile : ReadFileFn)
    (dirPath : GoStr) : List DirEntry → CfgMap T → ScanStats →
    CfgMap T × ScanStats × Option ScanErr
  | [], configs, stats => (configs, stats, none)
  | file :: rest, configs, stats =>
    if file.isDir then
      scanFlatLoop T cr readFile dirPath rest configs
        { stats with skipped := stats.skipped + 1 }
    else
      match processEntry T cr readFile dirPath file configs stats with
      | (configs, stats, some e) =>
        if cr.strictMode then (configs, stats, some e)
        else scanFlatLoop T cr readFile dirPath rest configs stats
      | (configs, stats, none) =>
        scanFlatLoop T cr readFile dirPath rest configs stats

/-- Model of `scanFlat`: `os.ReadDir` is given as the pair `(files, listErr)`; any
listing error aborts the scan (in both modes), otherwise the entries are
processed in order. -/
def scanFlat (T : Type) (cr : ConfigReader T) (readFile : ReadFileFn)
    (dirPath : GoStr) (files : List DirEntry) (listErr : Option GoStr)
    (configs : CfgMap T) (stats : ScanStats) :
    CfgMap T × ScanStats × Option ScanErr :=
  match listErr with
  | some e => (configs, stats, some (.readDirFailed e))
  | none => scanFlatLoop T cr readFile dirPath files configs stats

/-- The state threaded through a walk: the result map and the statistics. -/
abbrev ScanState (T : Type) := CfgMap T × ScanStats

/-- A `fs.WalkDirFunc` together with the mutable state it captures. -/
abbrev WalkFn (T : Type) :=
  GoStr → FsEntry → Option GoStr → ScanState T → ScanState T × Option ScanErr

/-- Termination measure: a node's entry list is structurally smaller than
the node. -/
theorem FsEntry.sizeOf_entries_lt (d : FsEntry) : sizeOf d.entries < sizeOf d := by
  cases d
  simp [FsEntry.entries]
  omega

mutual

/-- Go's `filepath.walkDir` (the recursion inside `filepath.WalkDir`),
specialised to callbacks that never return the `SkipDir`/`SkipAll`
sentinels — `scanRecursive`'s callback never does — so those branches are
dropped.  Call the function on the node; for a directory, report a listing
error through a second callback invocation and, if the callback returns
nil, keep walking the entries that could be listed.  (The node is matched
open and rebuilt for the callback so that the recursion is structural.) -/
def walkDirGo (T : Type) (fn : WalkFn T) (path : GoStr) (d : FsEntry)
    (st : ScanState T) : ScanState T × Option ScanErr :=
  match d with
  | .node name isDir infoRes entries listErr =>
    match fn path (.node name isDir infoRes entries listErr) none st with
    | (st, some e) => (st, some e)
    | (st, none) =>
      if isDir = false then (st, none)
      else
        match listErr with
        | some lerr =>
          match fn path (.node name isDir infoRes entries listErr) (some lerr) st with
          | (st, some e) => (st, some e)
          | (st, none) => walkDirList T fn path entries st
        | none => walkDirList T fn path entries st

/-- The `for _, d1 := range dirs` loop of `filepath.walkDir`. -/
def walkDirList (T : Type) (fn : WalkFn T) (path : GoStr) (l : List FsEntry)
    (st : ScanState T) : ScanState T × Option ScanErr :=
  match l with
  | [] => (st, none)
  | d1 :: rest =>
    match walkDirGo T fn (joinPath path d1.name) d1 st with
    | (st, some e) => (st, some e)
    | (st, none) => walkDirList T fn path rest st

end

/-- The `fs.WalkDirFunc` closure inside `scanRecursive`: a traversal error
aborts under strict mode and is counted-and-skipped otherwise; directories
are descended into; files are handed to `processEntry` relative to their
immediate parent directory. -/
def scanRecursiveVisit (T : Type) (cr : ConfigReader T) (readFile : ReadFileFn)
    (path : GoStr) (d : FsEntry) (errArg : Option GoStr) (st : ScanState T) :
    ScanState T × Option ScanErr :=
  match errArg with
  | some err =>
    if cr.strictMode then (st, some (.accessFailed path err))
    else ((st.1, { st.2 with errors := st.2.errors + 1 }), none)
  | none =>
    if d.isDir then (st, none)
    else
      let parentDir := dirName path
      match processEntry T cr readFile parentDir d.toDirEntry st.1 st.2 with
      | (configs, stats, e) => ((configs, stats), e)

/-- Model of `scanRecursive`: `filepath.WalkDir` from `dirPath` with the visit
closure.  `root` is the filesystem subtree at `dirPath` (`ReadDirMap` has
just stat'ed it successfully). -/
def scanRecursive (T : Type) (cr : ConfigReader T) (readFile : ReadFileFn)
    (dirPath : GoStr) (root : FsEntry) (st : ScanState T) :
    ScanState T × Option ScanErr :=
  walkDirGo T (scanRecursiveVisit T cr readFile) dirPath root st

/-- Model of `ReadDirMap`, returning the Go `(map[string]*T, error)` pair: `none` in
the first component is the nil map.  `root` is the filesystem subtree at
the (possibly defaulted) `dirPath`: `os.Stat dirPath` is `root.infoRes`,
`os.ReadDir dirPath` is `(root.entries, root.listErr)`. -/
def ReadDirMap (T : Type) (cr : ConfigReader T) (readFile : ReadFileFn)
    (dirPath : GoStr) (root : FsEntry) :
    Option (CfgMap T) × Option ScanErr :=
  let dirPath := if dirPath = [] then cr.defaultPath else dirPath
  match root.infoRes with
  | .error e => (none, some (.statFailed e))
  | .ok info =>
    if info.isDir = false then (none, some .notADirectory)
    else
      let configs : CfgMap T := fun _ => none
      let stats : ScanStats := ⟨0, 0, 0⟩
      let r :=
        if cr.recursive then
          scanRecursive T cr readFile dirPath root (configs, stats)
        else
          scanFlat T cr readFile dirPath (root.entries.map FsEntry.toDirEntry)
            root.listErr configs stats |>
            (fun p => ((p.1, p.2.1), p.2.2))
      match r with
      | (_, some e) => (none, some e)
      | ((configs, _), none) => (some configs, none)

/-! ## The unknown-format sentinel invariant (from the specification) -/

/-- The spec invariant on the unknown format: an entry for `FormatUnknown`
is in the catalog, and every extension mapped to `FormatUnknown` is the
empty (non-real) extension. -/
def unknownSentinelInv (T : Type) (cr : ConfigReader T) : Prop :=
  (∃ fd, cr.formats FormatUnknown = some fd) ∧
  ∀ ext, cr.supportedExts ext = some FormatUnknown → ext = []

/-! ## Concrete instances used to settle the claims

The target type is `Nat`; `yamlOkU`/`jsonOkU` deserialize the bytes
`"good"` to `1` resp. `2` and fail on anything else, standing in for
`yaml.Unmarshal` and `json.Unmarshal`. -/

def yamlOkU : UnmarshalFunc Nat :=
  fun data => if data = str "good" then .ok 1 else .error (str "yaml syntax error")

def jsonOkU : UnmarshalFunc Nat :=
  fun data => if data = str "good" then .ok 2 else .error (str "json syntax error")

def lenientReader : ConfigReader Nat := NewConfigReader Nat yamlOkU jsonOkU []

def strictReader : ConfigReader Nat :=
  NewConfigReader Nat yamlOkU jsonOkU [WithStrictMode Nat true]

def lenientRecReader : ConfigReader Nat :=
  NewConfigReader Nat yamlOkU jsonOkU [WithRecursive Nat true]

def strictRecReader : ConfigReader Nat :=
  NewConfigReader Nat yamlOkU jsonOkU [WithRecursive Nat true, WithStrictMode Nat true]

/-- Every file on disk holds the bytes `"good"`. -/
def okReadFile : ReadFileFn := fun _ => .ok (str "good")

/-- A disk on which `/cfg/bad.yaml` holds malformed bytes and every other
file holds `"good"`. -/
def scenarioReadFile : ReadFileFn :=
  fun p => if p = str "/cfg/bad.yaml" then .ok (str "bad!") else .ok (str "good")

def fsBadYaml : FsEntry :=
  .node (str "bad.yaml") false (.ok ⟨str "bad.yaml", 4, false⟩) [] none

def fsGoodYaml : FsEntry :=
  .node (str "a.yaml") false (.ok ⟨str "a.yaml", 4, false⟩) [] none

def fsSvcYaml : FsEntry :=
  .node (str "svc.yaml") false (.ok ⟨str "svc.yaml", 4, false⟩) [] none

def fsSvcJson : FsEntry :=
  .node (str "svc.json") false (.ok ⟨str "svc.json", 4, false⟩) [] none

/-- A directory with one malformed and one valid file, the malformed one
first in traversal order. -/
def mixedTree : FsEntry :=
  .node (str "cfg") true (.ok ⟨str "cfg", 0, true⟩) [fsBadYaml, fsGoodYaml] none

/-- A directory with two files deriving the same logical name `svc`. -/
def dupTree : FsEntry :=
  .node (str "cfg") true (.ok ⟨str "cfg", 0, true⟩) [fsSvcYaml, fsSvcJson] none

/-- A directory holding an unlistable subdirectory followed by a valid
file. -/
def lockedSubTree : FsEntry :=
  .node (str "cfg") true (.ok ⟨str "cfg", 0, true⟩)
    [ .node (str "locked") true (.ok ⟨str "locked", 0, true⟩) []
        (some (str "permission denied")),
      fsGoodYaml ] none

/-- A directory that cannot be listed at all. -/
def lockedRootTree : FsEntry :=
  .node (str "cfg") true (.ok ⟨str "cfg", 0, true⟩) [] (some (str "permission denied"))

/-- A `RegisterFormats` argument that assigns the real extension `.foo` to
the unknown format id. -/
def unknownGrabFormats : FormatList Nat :=
  [(FormatUnknown, ⟨str "unknown", [str ".foo"], none⟩)]

def badReader : ConfigReader Nat := RegisterFormats Nat lenientReader unknownGrabFormats

/-- A reader with a custom format whose extension is registered in mixed
case. -/
def mixedCaseReader : ConfigReader Nat :=
  RegisterFormats Nat lenientReader
    [(DefaultFormatsCount, ⟨str "toml", [str ".TOML"], some (fun _ => .ok 7)⟩)]

/-! ## Helper lemmas: `lastDotIndex` -/

theorem lastDotIndex_eq_none_iff (f : GoStr) : lastDotIndex f = none ↔ '.' ∉ f := by
  induction f with
  | nil => simp [lastDotIndex]
  | cons c rest ih =>
    rw [lastDotIndex]
    cases hr : lastDotIndex rest with
    | some i =>
      simp only [List.mem_cons]
      constructor
      · intro h; exact absurd h (by simp)
      · intro h
        exact absurd (ih.mpr (fun hm => h (Or.inr hm))) (by simp [hr])
    | none =>
      have hrest : '.' ∉ rest := ih.mp hr
      by_cases hc : c = '.'
      · simp [hc]
      · simp [hc, hrest, Ne.symm hc]

theorem lastDotIndex_eq_some_of (f : GoStr) (i : Nat) (h : i < f.length)
    (hdot : f.get ⟨i, h⟩ = '.')
    (hlast : ∀ (j : Nat) (hj : j < f.length), i < j → f.get ⟨j, hj⟩ ≠ '.') :
    lastDotIndex f = some i := by
  induction f generalizing i with
  | nil => exact absurd h (Nat.not_lt_zero i)
  | cons c rest ih =>
    cases i with
    | zero =>
      have hc : c = '.' := hdot
      have hrest : '.' ∉ rest := by
        intro hm
        obtain ⟨⟨j, hj⟩, hget⟩ := List.mem_iff_get.mp hm
        exact hlast (j + 1) (by simpa using Nat.succ_lt_succ hj) (Nat.succ_pos j)
          (by simpa using hget)
      rw [lastDotIndex, (lastDotIndex_eq_none_iff rest).mpr hrest]
      simp [hc]
    | succ i' =>
      have h' : i' < rest.length := Nat.lt_of_succ_lt_succ (by simpa using h)
      have hdot' : rest.get ⟨i', h'⟩ = '.' := hdot
      have hlast' : ∀ (j : Nat) (hj : j < rest.length), i' < j → rest.get ⟨j, hj⟩ ≠ '.' := by
        intro j hj hij
        exact hlast (j + 1) (by simpa using Nat.succ_lt_succ hj) (Nat.succ_lt_succ hij)
      rw [lastDotIndex, ih i' h' hdot' hlast']

/-! ## Helper lemmas: characters and `goExt` -/

theorem toNat_ofNat_valid (n : Nat) (h : n.isValidChar) : (Char.ofNat n).toNat = n := by
  simp [Char.ofNat, h, Char.ofNatAux, Char.toNat, UInt32.toNat]

/-- Lowering a character can only produce a lower-case letter or leave the
character unchanged, so any non-letter result pins the input down. -/
theorem toLowerChar_eq_of_nonletter (c t : Char) (ht : t.toNat < 97 ∨ 122 < t.toNat)
    (h : toLowerChar c = t) : c = t := by
  unfold toLowerChar at h
  split_ifs at h with h1
  · exfalso
    have h65 : 65 ≤ c.toNat := h1.1
    have h90 : c.toNat ≤ 90 := h1.2
    have hv : (c.toNat + 32).isValidChar := by left; omega
    have hn := congrArg Char.toNat h
    rw [toNat_ofNat_valid _ hv] at hn
    omega
  · exact h

theorem toLowerChar_dot_iff (c : Char) : toLowerChar c = '.' ↔ c = '.' :=
  ⟨fun h => toLowerChar_eq_of_nonletter c '.' (Or.inl (by decide)) h,
   fun h => by rw [h]; decide⟩

theorem toLowerChar_slash_iff (c : Char) : toLowerChar c = '/' ↔ c = '/' :=
  ⟨fun h => toLowerChar_eq_of_nonletter c '/' (Or.inl (by decide)) h,
   fun h => by rw [h]; decide⟩

theorem toLowerChar_congr_dot (c d : Char) (h : toLowerChar c = toLowerChar d) :
    (c = '.') ↔ (d = '.') := by
  constructor
  · intro hc; subst hc; exact (toLowerChar_dot_iff d).mp (by rw [← h]; decide)
  · intro hd; subst hd; exact (toLowerChar_dot_iff c).mp (by rw [h]; decide)

theorem toLowerChar_congr_slash (c d : Char) (h : toLowerChar c = toLowerChar d) :
    (c = '/') ↔ (d = '/') := by
  constructor
  · intro hc; subst hc; exact (toLowerChar_slash_iff d).mp (by rw [← h]; decide)
  · intro hd; subst hd; exact (toLowerChar_slash_iff c).mp (by rw [h]; decide)

/-- Scanning two strings that agree up to case yields extensions that agree
up to case. -/
theorem goExtAux_map_toLower (rf : GoStr) : ∀ (rg accf accg : GoStr),
    rf.map toLowerChar = rg.map toLowerChar →
    accf.map toLowerChar = accg.map toLowerChar →
    (goExtAux accf rf).map toLowerChar = (goExtAux accg rg).map toLowerChar := by
  induction rf with
  | nil =>
    intro rg accf accg hmap _
    have : rg = [] := by
      cases rg with
      | nil => rfl
      | cons d rg' => simp at hmap
    subst this
    simp [goExtAux]
  | cons c rf' ih =>
    intro rg accf accg hmap hacc
    cases rg with
    | nil => simp at hmap
    | cons d rg' =>
      simp only [List.map_cons, List.cons.injEq] at hmap
      obtain ⟨hcd, hmap'⟩ := hmap
      rw [goExtAux, goExtAux]
      by_cases hslash : c = '/'
      · have hd : d = '/' := (toLowerChar_congr_slash c d hcd).mp hslash
        simp [hslash, hd]
      · have hd : d ≠ '/' := fun hh => hslash ((toLowerChar_congr_slash c d hcd).mpr hh)
        by_cases hdotc : c = '.'
        · have hd2 : d = '.' := (toLowerChar_congr_dot c d hcd).mp hdotc
          simp only [if_neg hslash, if_neg hd, if_pos hdotc, if_pos hd2, List.map_cons]
          simp [hacc]
        · have hd2 : d ≠ '.' := fun hh => hdotc ((toLowerChar_congr_dot c d hcd).mpr hh)
          simp only [if_neg hslash, if_neg hd, if_neg hdotc, if_neg hd2]
          exact ih rg' (c :: accf) (d :: accg) hmap' (by simp [hcd, hacc])

theorem toLower_goExt_congr (f g : GoStr) (h : toLower f = toLower g) :
    toLower (goExt f) = toLower (goExt g) := by
  rw [goExt, goExt]
  exact goExtAux_map_toLower f.reverse g.reverse [] []
    (by rw [List.map_reverse, List.map_reverse]; exact congrArg List.reverse h) rfl

/-- Scanning characters that are neither dots nor slashes, followed by a
dot, yields the dot plus everything scanned so far. -/
theorem goExtAux_no_stop (xs : GoStr) : ∀ (tail acc : GoStr), '.' ∉ xs → '/' ∉ xs →
    goExtAux acc (xs ++ '.' :: tail) = '.' :: (xs.reverse ++ acc) := by
  induction xs with
  | nil => intro tail acc _ _; simp [goExtAux]
  | cons c rest ih =>
    intro tail acc hdot hslash
    have hc1 : c ≠ '/' := fun h => hslash (by rw [h] at *; exact List.mem_cons_self _ _)
    have hc2 : c ≠ '.' := fun h => hdot (by rw [h] at *; exact List.mem_cons_self _ _)
    rw [List.cons_append, goExtAux]
    simp only [if_neg hc1, if_neg hc2]
    rw [ih tail (c :: acc) (fun h => hdot (List.mem_cons_of_mem c h))
      (fun h => hslash (List.mem_cons_of_mem c h))]
    simp

/-- A filename whose only dot is a leading one (and which has no path
separator) is its own `filepath.Ext`. -/
theorem goExt_of_leading_dot (rest : GoStr) (hdot : '.' ∉ rest) (hslash : '/' ∉ rest) :
    goExt ('.' :: rest) = '.' :: rest := by
  rw [goExt, List.reverse_cons,
    goExtAux_no_stop rest.reverse [] [] (by simpa using hdot) (by simpa using hslash)]
  simp

/-! ## Claim C5 -/

/-- C5: for every filename containing a dot at some index other than 0,
`baseName` returns everything before the last dot; for a filename with no
dot, or whose only dot sits at index 0, `baseName` returns the filename
unchanged.  The last dot is characterised positionally: index `i` holds a
dot and no later index does. -/
theorem c5_baseName_strips_final_extension :
    (∀ (f : GoStr) (i : Nat) (h : i < f.length),
        f.get ⟨i, h⟩ = '.' →
        (∀ (j : Nat) (hj : j < f.length), i < j → f.get ⟨j, hj⟩ ≠ '.') →
        (i ≠ 0 → baseName f = f.take i) ∧ (i = 0 → baseName f = f)) ∧
    (∀ f : GoStr, '.' ∉ f → baseName f = f) := by
  constructor
  · intro f i h hdot hlast
    have hL := lastDotIndex_eq_some_of f i h hdot hlast
    constructor
    · intro hi; rw [baseName, hL]; simp [hi]
    · intro hi; rw [baseName, hL]; simp [hi]
  · intro f hf
    rw [baseName, (lastDotIndex_eq_none_iff f).mpr hf]

/-- Witness for C5 at `app.tar.gz` (last dot at index 7, strips to
`app.tar`), at `.env` (dot only at index 0, unchanged) and at `README` (no
dot, unchanged). -/
theorem c5_witness :
    baseName (str "app.tar.gz") = (str "app.tar.gz").take 7 ∧
    baseName (str ".env") = str ".env" ∧
    baseName (str "README") = str "README" :=
  ⟨(c5_baseName_strips_final_extension.1 (str "app.tar.gz") 7 (by decide) (by decide)
      (by decide)).1 (by decide),
   (c5_baseName_strips_final_extension.1 (str ".env") 0 (by decide) (by decide)
      (by decide)).2 rfl,
   c5_baseName_strips_final_extension.2 (str "README") (by decide)⟩

/-! ## Claim C1 -/

/-- C1 is false on the code: Go's `filepath.Ext` has no special case for a
dot at index 0, so the filename `.yaml` detects as the YAML format (not as
unknown), and `processFile` on such a file does not fail with the
unsupported-format error. -/
theorem c1_counterexample :
    detectFormat Nat lenientReader (str ".yaml") = FormatYAML ∧
    FormatYAML ≠ FormatUnknown ∧
    (processFile Nat lenientReader okReadFile (str "/cfg/.yaml")
        ⟨str ".yaml", 4, false⟩).err ≠ some ProcError.unsupportedFormat := by
  refine ⟨by decide, by decide, by decide⟩

/-- C1 amended: for a filename whose final dot is at index 0, format
detection treats the entire lower-cased filename as the extension and looks
it up (yielding the registered owner when there is one, e.g. `.yaml`
detects as YAML); only when that extension has no registered owner does
detection yield the unknown format, and `processFile` then fails with the
unsupported-format error. -/
theorem c1_amended_leading_dot_detection (T : Type) (cr : ConfigReader T) (rest : GoStr)
    (hdot : '.' ∉ rest) (hslash : '/' ∉ rest) :
    detectFormat T cr ('.' :: rest) =
      ((cr.supportedExts (toLower ('.' :: rest))).getD FormatUnknown) ∧
    (∀ (readFile : ReadFileFn) (fullPath : GoStr) (size : Int),
        cr.supportedExts (toLower ('.' :: rest)) = none →
        ¬ size > cr.maxFileSize →
        processFile T cr readFile fullPath ⟨'.' :: rest, size, false⟩ =
          ⟨none, baseName ('.' :: rest), some ProcError.unsupportedFormat⟩) := by
  have hext := goExt_of_leading_dot rest hdot hslash
  constructor
  · rw [detectFormat, hext]
    cases cr.supportedExts (toLower ('.' :: rest)) <;> rfl
  · intro readFile fullPath size hnone hsize
    rw [processFile]
    simp only [if_neg hsize, Bool.false_eq_true, if_false]
    have hdet : detectFormat T cr ('.' :: rest) = FormatUnknown := by
      rw [detectFormat, hext, hnone]
    rw [hdet]
    simp [FormatUnknown]

/-- Witness for C1 at the unregistered leading-dot filename `.env`. -/
theorem c1_witness :
    detectFormat Nat lenientReader (str ".env") =
      ((lenientReader.supportedExts (toLower (str ".env"))).getD FormatUnknown) ∧
    processFile Nat lenientReader okReadFile (str "/cfg/.env") ⟨str ".env", 4, false⟩ =
      ⟨none, baseName (str ".env"), some ProcError.unsupportedFormat⟩ := by
  have h := c1_amended_leading_dot_detection Nat lenientReader (str "env")
    (by decide) (by decide)
  exact ⟨h.1, h.2 okReadFile (str "/cfg/.env") 4 (by decide) (by decide)⟩

/-! ## Claim C7 -/

/-- C7: format detection is case-insensitive on the extension — any two
filenames that agree up to ASCII case detect identically, for every reader
(in particular for readers whose extensions were registered in mixed
case). -/
theorem c7_detect_case_insensitive (T : Type) (cr : ConfigReader T) (f g : GoStr)
    (h : toLower f = toLower g) : detectFormat T cr f = detectFormat T cr g := by
  rw [detectFormat, detectFormat, toLower_goExt_congr f g h]

/-- Witness for C7: `A.TOML` and `a.toml` over a reader whose `.TOML`
extension was registered in mixed case. -/
theorem c7_witness :
    detectFormat Nat mixedCaseReader (str "A.TOML") =
      detectFormat Nat mixedCaseReader (str "a.toml") :=
  c7_detect_case_insensitive Nat mixedCaseReader (str "A.TOML") (str "a.toml") (by decide)

/-! ## Claim C6 -/

/-- Read-and-parse can fail, but never with the size-ceiling error — that
error is produced only by the size check that precedes the read. -/
theorem readAndParseFile_no_tooLarge (T : Type) (cr : ConfigReader T)
    (readFile : ReadFileFn) (fullPath : GoStr) (format : ConfigFormat) (s m : Int) :
    readAndParseFile T cr readFile fullPath format ≠ .error (.tooLarge s m) := by
  rw [readAndParseFile]
  cases readFile fullPath with
  | error e => simp
  | ok data =>
    cases cr.formats format with
    | none => simp
    | some fi =>
      cases h2 : fi.Unmarshal with
      | none => simp [h2]
      | some u => cases h3 : u data <;> simp [h2, h3]

/-- C6: for a non-directory entry whose reported size exceeds the maximum,
`processFile` returns the size-ceiling failure — an outcome independent of
the read function, i.e. decided without reading the bytes; when the size
does not exceed the maximum, `processFile` never returns the size-ceiling
error. -/
theorem c6_size_ceiling (T : Type) (cr : ConfigReader T) (readFile : ReadFileFn)
    (fullPath : GoStr) (info : FileInfo) (hfile : info.isDir = false) :
    (info.size > cr.maxFileSize →
        processFile T cr readFile fullPath info =
          ⟨none, baseName info.name, some (.tooLarge info.size cr.maxFileSize)⟩) ∧
    (¬ info.size > cr.maxFileSize →
        ∀ s m : Int, (processFile T cr readFile fullPath info).err ≠
          some (.tooLarge s m)) := by
  constructor
  · intro hsize
    rw [processFile]
    simp [hfile, hsize]
  · intro hsize s m
    rw [processFile]
    simp only [hfile, Bool.false_eq_true, if_false, if_neg hsize]
    by_cases hdet : detectFormat T cr info.name = FormatUnknown
    · simp [hdet]
    · simp only [if_neg hdet]
      cases h : readAndParseFile T cr readFile fullPath (detectFormat T cr info.name) with
      | error e =>
        intro heq
        simp only [Option.some.injEq] at heq
        exact readAndParseFile_no_tooLarge T cr readFile fullPath
          (detectFormat T cr info.name) s m (heq ▸ h)
      | ok cfg => simp

/-- Witness for C6: a 20MB `big.yaml` is rejected with the size error under
the default 10MB ceiling, and a small `a.yaml` is never rejected by that
check. -/
theorem c6_witness :
    processFile Nat lenientReader okReadFile (str "/cfg/big.yaml")
        ⟨str "big.yaml", 20000000, false⟩ =
      ⟨none, baseName (str "big.yaml"),
        some (.tooLarge 20000000 lenientReader.maxFileSize)⟩ ∧
    (processFile Nat lenientReader okReadFile (str "/cfg/a.yaml")
        ⟨str "a.yaml", 4, false⟩).err ≠ some (.tooLarge 1 2) :=
  ⟨(c6_size_ceiling Nat lenientReader okReadFile (str "/cfg/big.yaml")
      ⟨str "big.yaml", 20000000, false⟩ rfl).1 (by decide),
   (c6_size_ceiling Nat lenientReader okReadFile (str "/cfg/a.yaml")
      ⟨str "a.yaml", 4, false⟩ rfl).2 (by decide) 1 2⟩

/-! ## Claim C9 -/

/-- C9: `processFile` pairs the derived logical name (`baseName` of the
filename) with the directory, size-ceiling and unsupported-format failures
as well as with success, but returns the empty name on the parse-failure
path. -/
theorem c9_processFile_name_on_paths (T : Type) (cr : ConfigReader T)
    (readFile : ReadFileFn) (fullPath : GoStr) (info : FileInfo) :
    (info.isDir = true →
        processFile T cr readFile fullPath info =
          ⟨none, baseName info.name, some .isDirectory⟩) ∧
    (info.isDir = false → info.size > cr.maxFileSize →
        processFile T cr readFile fullPath info =
          ⟨none, baseName info.name, some (.tooLarge info.size cr.maxFileSize)⟩) ∧
    (info.isDir = false → ¬ info.size > cr.maxFileSize →
        detectFormat T cr info.name = FormatUnknown →
        processFile T cr readFile fullPath info =
          ⟨none, baseName info.name, some .unsupportedFormat⟩) ∧
    (∀ fmtName msg : GoStr,
        (processFile T cr readFile fullPath info).err = some (.parseError fmtName msg) →
        (processFile T cr readFile fullPath info).name = []) ∧
    ((processFile T cr readFile fullPath info).err = none →
        (processFile T cr readFile fullPath info).name = baseName info.name) := by
  refine ⟨?_, ?_, ?_, ?_, ?_⟩
  · intro h; rw [processFile]; simp [h]
  · intro h1 h2; rw [processFile]; simp [h1, h2]
  · intro h1 h2 h3; rw [processFile]; simp [h1, h2, h3]
  · intro fmtName msg heq
    rw [processFile] at heq ⊢
    by_cases h1 : info.isDir
    · simp [h1] at heq
    · simp only [h1, Bool.false_eq_true, if_false] at heq ⊢
      by_cases h2 : info.size > cr.maxFileSize
      · simp [h2] at heq
      · simp only [if_neg h2] at heq ⊢
        by_cases h3 : detectFormat T cr info.name = FormatUnknown
        · simp [h3] at heq
        · simp only [if_neg h3] at heq ⊢
          cases h : readAndParseFile T cr readFile fullPath (detectFormat T cr info.name) with
          | error e => simp [h]
          | ok cfg => rw [h] at heq; simp at heq
  · intro hnone
    rw [processFile] at hnone ⊢
    by_cases h1 : info.isDir
    · simp [h1] at hnone
    · simp only [h1, Bool.false_eq_true, if_false] at hnone ⊢
      by_cases h2 : info.size > cr.maxFileSize
      · simp [h2] at hnone
      · simp only [if_neg h2] at hnone ⊢
        by_cases h3 : detectFormat T cr info.name = FormatUnknown
        · simp [h3] at hnone
        · simp only [if_neg h3] at hnone ⊢
          cases h : readAndParseFile T cr readFile fullPath (detectFormat T cr info.name) with
          | error e => rw [h] at hnone; simp at hnone
          | ok cfg => simp [h]

/-- Witness for C9: a directory entry, an oversized file, an unsupported
`.txt` file, a malformed `bad.yaml` (empty name), and a valid `a.yaml`. -/
theorem c9_witness :
    processFile Nat lenientReader okReadFile (str "/cfg/sub") ⟨str "sub", 0, true⟩ =
      ⟨none, baseName (str "sub"), some ProcError.isDirectory⟩ ∧
    processFile Nat lenientReader okReadFile (str "/cfg/big.yaml")
        ⟨str "big.yaml", 20000000, false⟩ =
      ⟨none, baseName (str "big.yaml"),
        some (.tooLarge 20000000 lenientReader.maxFileSize)⟩ ∧
    processFile Nat lenientReader okReadFile (str "/cfg/x.txt")
        ⟨str "x.txt", 4, false⟩ =
      ⟨none, baseName (str "x.txt"), some ProcError.unsupportedFormat⟩ ∧
    (processFile Nat lenientReader scenarioReadFile (str "/cfg/bad.yaml")
        ⟨str "bad.yaml", 4, false⟩).name = [] ∧
    (processFile Nat lenientReader okReadFile (str "/cfg/a.yaml")
        ⟨str "a.yaml", 4, false⟩).name = baseName (str "a.yaml") :=
  ⟨(c9_processFile_name_on_paths Nat lenientReader okReadFile (str "/cfg/sub")
      ⟨str "sub", 0, true⟩).1 rfl,
   (c9_processFile_name_on_paths Nat lenientReader okReadFile (str "/cfg/big.yaml")
      ⟨str "big.yaml", 20000000, false⟩).2.1 rfl (by decide),
   (c9_processFile_name_on_paths Nat lenientReader okReadFile (str "/cfg/x.txt")
      ⟨str "x.txt", 4, false⟩).2.2.1 rfl (by decide) (by decide),
   (c9_processFile_name_on_paths Nat lenientReader scenarioReadFile (str "/cfg/bad.yaml")
      ⟨str "bad.yaml", 4, false⟩).2.2.2.1 (str "yaml") (str "yaml syntax error") (by decide),
   (c9_processFile_name_on_paths Nat lenientReader okReadFile (str "/cfg/a.yaml")
      ⟨str "a.yaml", 4, false⟩).2.2.2.2 (by decide)⟩

/-! ## Claim C8 -/

/-- Unfolding one extension-registration fold: a hit either was present
before the fold or comes from one of the registered extensions. -/
theorem extFoldl_lookup (fid : ConfigFormat) (exts : List GoStr) :
    ∀ (m : GoStr → Option ConfigFormat) (k : GoStr) (v : ConfigFormat),
    (exts.foldl (fun m ext => fun k' => if k' = toLower ext then some fid else m k') m) k
        = some v →
    m k = some v ∨ (v = fid ∧ ∃ ext ∈ exts, toLower ext = k) := by
  induction exts with
  | nil => intro m k v h; exact Or.inl h
  | cons e rest ih =>
    intro m k v h
    rcases ih (fun k' => if k' = toLower e then some fid else m k') k v h with h' | h'
    · have h'' : (if k = toLower e then some fid else m k) = some v := h'
      by_cases hk : k = toLower e
      · rw [if_pos hk] at h''
        exact Or.inr ⟨(Option.some.inj h'').symm, e, List.mem_cons_self e rest, hk.symm⟩
      · rw [if_neg hk] at h''
        exact Or.inl h''
    · obtain ⟨hv, ext, hmem, hext⟩ := h'
      exact Or.inr ⟨hv, ext, List.mem_cons_of_mem e hmem, hext⟩

/-- Unfolding the format-registration fold of `RegisterFormats`: a hit in
the extension table either predates the call or comes from one of the
registered formats. -/
theorem fmtsFoldl_lookup (T : Type) (fmts : FormatList T) :
    ∀ (m : GoStr → Option ConfigFormat) (k : GoStr) (v : ConfigFormat),
    (fmts.foldl
        (fun m p =>
          p.2.Extensions.foldl
            (fun m ext => fun k' => if k' = toLower ext then some p.1 else m k') m)
        m) k = some v →
    m k = some v ∨ ∃ p ∈ fmts, p.1 = v ∧ ∃ ext ∈ p.2.Extensions, toLower ext = k := by
  induction fmts with
  | nil => intro m k v h; exact Or.inl h
  | cons p rest ih =>
    intro m k v h
    rcases ih _ k v h with h' | h'
    · rcases extFoldl_lookup p.1 p.2.Extensions m k v h' with h'' | ⟨hv, ext, hmem, hext⟩
      · exact Or.inl h''
      · exact Or.inr ⟨p, List.mem_cons_self p rest, hv.symm, ext, hmem, hext⟩
    · obtain ⟨q, hmem, hq⟩ := h'
      exact Or.inr ⟨q, List.mem_cons_of_mem p hmem, hq⟩

/-- The catalog fold of `RegisterFormats` never removes an entry. -/
theorem fmtsFoldl_formats_isSome (T : Type) (fmts : FormatList T) :
    ∀ (fm : ConfigFormat → Option (FormatData T)) (k : ConfigFormat),
    (fm k).isSome = true →
    ((fmts.foldl (fun fm p => fun k' => if k' = p.1 then some p.2 else fm k') fm) k).isSome
      = true := by
  induction fmts with
  | nil => intro fm k h; exact h
  | cons p rest ih =>
    intro fm k h
    apply ih
    show (if k = p.1 then some p.2 else fm k).isSome = true
    by_cases hk : k = p.1
    · rw [if_pos hk]; rfl
    · rw [if_neg hk]; exact h

/-- Folding the construction options touches neither the extension table
nor the catalog when each option leaves them unchanged. -/
theorem optsFoldl_preserves (T : Type) (l : List (ConfigReader T → ConfigReader T)) :
    ∀ (c : ConfigReader T),
    (∀ o ∈ l, ∀ c', (o c').supportedExts = c'.supportedExts ∧ (o c').formats = c'.formats) →
    (l.foldl (fun c o => o c) c).supportedExts = c.supportedExts ∧
    (l.foldl (fun c o => o c) c).formats = c.formats := by
  induction l with
  | nil => intro c _; exact ⟨rfl, rfl⟩
  | cons o rest ih =>
    intro c hl
    have h1 := hl o (List.mem_cons_self o rest) c
    have h2 := ih (o c) (fun o' ho' => hl o' (List.mem_cons_of_mem o ho'))
    rw [List.foldl_cons] at *
    exact ⟨h2.1.trans h1.1, h2.2.trans h1.2⟩

/-- C8 is false on the code as universally stated: `RegisterFormats` does
not guard the unknown format id, so a registration that assigns the real
extension `.foo` to `FormatUnknown` makes the unknown format own a real
extension. -/
theorem c8_counterexample : ¬ unknownSentinelInv Nat badReader := by
  intro h
  have h2 := h.2 (str ".foo") (by decide)
  exact absurd h2 (by decide)

/-- C8 amended: the unknown-format invariant holds after construction (for
any options that, like all five documented ones, leave the format registry
untouched); it is preserved by every `RegisterFormats` call whose argument
does not itself assign a non-empty extension to the unknown format id; the
catalog entry for the unknown id survives every `RegisterFormats` call
unconditionally; and detection falls back to the unknown format exactly
when the extension has no registered owner. -/
theorem c8_amended_unknown_sentinel (T : Type) (yU jU : UnmarshalFunc T)
    (opts : List (ConfigReader T → ConfigReader T))
    (hopts : ∀ o ∈ opts, ∀ c,
        (o c).supportedExts = c.supportedExts ∧ (o c).formats = c.formats) :
    unknownSentinelInv T (NewConfigReader T yU jU opts) ∧
    (∀ (cr : ConfigReader T) (fmts : FormatList T),
        unknownSentinelInv T cr →
        (∀ p ∈ fmts, p.1 = FormatUnknown → ∀ ext ∈ p.2.Extensions, toLower ext = []) →
        unknownSentinelInv T (RegisterFormats T cr fmts)) ∧
    (∀ (cr : ConfigReader T) (fmts : FormatList T),
        (∃ fd, cr.formats FormatUnknown = some fd) →
        ∃ fd, (RegisterFormats T cr fmts).formats FormatUnknown = some fd) ∧
    (∀ (cr : ConfigReader T) (f : GoStr),
        cr.supportedExts (toLower (goExt f)) = none →
        detectFormat T cr f = FormatUnknown) := by
  have hreg : ∀ (cr : ConfigReader T) (fmts : FormatList T),
      unknownSentinelInv T cr →
      (∀ p ∈ fmts, p.1 = FormatUnknown → ∀ ext ∈ p.2.Extensions, toLower ext = []) →
      unknownSentinelInv T (RegisterFormats T cr fmts) := by
    intro cr fmts hinv hfmts
    constructor
    · obtain ⟨fd, hfd⟩ := hinv.1
      have := fmtsFoldl_formats_isSome T fmts cr.formats FormatUnknown (by rw [hfd]; rfl)
      obtain ⟨fd', hfd'⟩ := Option.isSome_iff_exists.mp this
      exact ⟨fd', hfd'⟩
    · intro ext hext
      rcases fmtsFoldl_lookup T fmts cr.supportedExts ext FormatUnknown hext with h | h
      · exact hinv.2 ext h
      · obtain ⟨p, hmem, hp1, e, hemem, he⟩ := h
        rw [← he]
        exact hfmts p hmem hp1 e hemem
  refine ⟨?_, hreg, ?_, ?_⟩
  · rw [NewConfigReader]
    have hbase : unknownSentinelInv T
        (RegisterFormats T
          { defaultPath := str "/etc/config"
            supportedExts := fun _ => none
            formats := fun _ => none
            strictMode := false
            maxFileSize := 10 * 1024 * 1024
            recursive := false }
          (DefaultFormats T yU jU)) := by
      constructor
      · exact ⟨⟨str "unknown", [[]], none⟩, rfl⟩
      · intro ext hext
        rcases fmtsFoldl_lookup T (DefaultFormats T yU jU) (fun _ => none) ext
            FormatUnknown hext with h | h
        · exact absurd h (by simp)
        · obtain ⟨p, hmem, hp1, e, hemem, he⟩ := h
          rw [DefaultFormats] at hmem
          simp only [List.mem_cons, List.not_mem_nil, or_false] at hmem
          rcases hmem with h1 | h1 | h1
          · rw [h1] at hemem
            simp only [List.mem_singleton] at hemem
            rw [← he, hemem]
            rfl
          · rw [h1] at hp1; simp [FormatYAML, FormatUnknown] at hp1
          · rw [h1] at hp1; simp [FormatJSON, FormatUnknown] at hp1
    have hpres := optsFoldl_preserves T opts
      (RegisterFormats T
        { defaultPath := str "/etc/config"
          supportedExts := fun _ => none
          formats := fun _ => none
          strictMode := false
          maxFileSize := 10 * 1024 * 1024
          recursive := false }
        (DefaultFormats T yU jU)) hopts
    constructor
    · exact hpres.2.symm ▸ hbase.1
    · intro ext hext
      rw [hpres.1] at hext
      exact hbase.2 ext hext
  · rintro cr fmts ⟨fd, hfd⟩
    have := fmtsFoldl_formats_isSome T fmts cr.formats FormatUnknown (by rw [hfd]; rfl)
    exact Option.isSome_iff_exists.mp this
  · intro cr f h
    rw [detectFormat, h]

/-- Witness for C8: the default reader built with the strict-mode option
satisfies the invariant, and registering a format map that keeps its hands
off the unknown id preserves it. -/
theorem c8_witness :
    unknownSentinelInv Nat strictReader ∧
    unknownSentinelInv Nat mixedCaseReader := by
  have h := c8_amended_unknown_sentinel Nat yamlOkU jsonOkU [WithStrictMode Nat true]
    (by intro o ho c; rw [List.mem_singleton] at ho; rw [ho]; exact ⟨rfl, rfl⟩)
  refine ⟨h.1, ?_⟩
  have h0 := c8_amended_unknown_sentinel Nat yamlOkU jsonOkU []
    (by intro o ho c; exact absurd ho (List.not_mem_nil o))
  exact h0.2.1 lenientReader
    [(DefaultFormatsCount, ⟨str "toml", [str ".TOML"], some (fun _ => .ok 7)⟩)]
    h0.1
    (by
      intro p hp h1
      rw [List.mem_singleton] at hp
      rw [hp] at h1
      exact absurd h1 (by decide))

/-! ## Claim C2 -/

/-- Under lenient mode, `processEntry` never returns a scan-aborting
error. -/
theorem processEntry_err_none (T : Type) (cr : ConfigReader T) (readFile : ReadFileFn)
    (parentDir : GoStr) (entry : DirEntry) (configs : CfgMap T) (stats : ScanStats)
    (h : cr.strictMode = false) :
    (processEntry T cr readFile parentDir entry configs stats).2.2 = none := by
  cases hinfo : entry.infoRes with
  | error e => rw [processEntry, hinfo]; simp [h]
  | ok info =>
    rw [processEntry, hinfo]
    cases herr : (processFile T cr readFile (joinPath parentDir entry.name) info).err with
    | some e => simp [herr, h]
    | none =>
      cases hcfg : (processFile T cr readFile (joinPath parentDir entry.name) info).cfg with
      | none => simp [herr, hcfg]
      | some cfg => simp [herr, hcfg, h]

/-- Under lenient mode, the flat entry loop never returns a scan-aborting
error. -/
theorem scanFlatLoop_err_none (T : Type) (cr : ConfigReader T) (readFile : ReadFileFn)
    (dirPath : GoStr) (h : cr.strictMode = false) :
    ∀ (files : List DirEntry) (configs : CfgMap T) (stats : ScanStats),
    (scanFlatLoop T cr readFile dirPath files configs stats).2.2 = none := by
  intro files
  induction files with
  | nil => intro configs stats; rw [scanFlatLoop]
  | cons f rest ih =>
    intro configs stats
    rw [scanFlatLoop]
    by_cases hd : f.isDir
    · simp [hd, ih]
    · simp only [hd, Bool.false_eq_true, if_false]
      rcases hp : processEntry T cr readFile dirPath f configs stats with ⟨c2, s2, e2⟩
      have h2 := processEntry_err_none T cr readFile dirPath f configs stats h
      rw [hp] at h2
      have h3 : e2 = none := h2
      subst h3
      simp [ih]

mutual

/-- A walk whose callback never errors never errors. -/
theorem walkDirGo_err_none (T : Type) (fn : WalkFn T)
    (hfn : ∀ p d e st, (fn p d e st).2 = none) (path : GoStr) (d : FsEntry)
    (st : ScanState T) : (walkDirGo T fn path d st).2 = none := by
  cases d with
  | node name isDir infoRes entries listErr =>
    rw [walkDirGo]
    rcases h1 : fn path (.node name isDir infoRes entries listErr) none st with ⟨st1, e1⟩
    have he1 : e1 = none := by
      have := hfn path (.node name isDir infoRes entries listErr) none st
      rw [h1] at this
      exact this
    subst he1
    cases isDir with
    | false => simp
    | true =>
      cases listErr with
      | some lerr =>
        rcases h2 : fn path (.node name true infoRes entries (some lerr)) (some lerr) st1
          with ⟨st2, e2⟩
        have he2 : e2 = none := by
          have := hfn path (.node name true infoRes entries (some lerr)) (some lerr) st1
          rw [h2] at this
          exact this
        subst he2
        simpa [h2] using walkDirList_err_none T fn hfn path entries st2
      | none =>
        simpa using walkDirList_err_none T fn hfn path entries st1
termination_by sizeOf d
decreasing_by
  all_goals simp
  all_goals omega

/-- The list counterpart of `walkDirGo_err_none`. -/
theorem walkDirList_err_none (T : Type) (fn : WalkFn T)
    (hfn : ∀ p d e st, (fn p d e st).2 = none) (path : GoStr) (l : List FsEntry)
    (st : ScanState T) : (walkDirList T fn path l st).2 = none := by
  cases l with
  | nil => rw [walkDirList]
  | cons d1 rest =>
    rw [walkDirList]
    rcases h1 : walkDirGo T fn (joinPath path d1.name) d1 st with ⟨st1, e1⟩
    have he1 : e1 = none := by
      have := walkDirGo_err_none T fn hfn (joinPath path d1.name) d1 st
      rw [h1] at this
      exact this
    subst he1
    exact walkDirList_err_none T fn hfn path rest st1
termination_by sizeOf l
decreasing_by
  all_goals simp
  all_goals omega

end

/-- An error from walking the head entry aborts the whole list walk with
that error. -/
theorem walkDirList_cons_err (T : Type) (fn : WalkFn T) (path : GoStr) (d1 : FsEntry)
    (rest : List FsEntry) (st st' : ScanState T) (err : ScanErr)
    (h : walkDirGo T fn (joinPath path d1.name) d1 st = (st', some err)) :
    walkDirList T fn path (d1 :: rest) st = (st', some err) := by
  rw [walkDirList, h]

/-- A prefix of the entry list that walks through without error just
advances the state the remaining entries are walked from. -/
theorem walkDirList_append_none (T : Type) (fn : WalkFn T) (path : GoStr) :
    ∀ (pre : List FsEntry) (st st' : ScanState T),
    walkDirList T fn path pre st = (st', none) →
    ∀ (l : List FsEntry),
      walkDirList T fn path (pre ++ l) st = walkDirList T fn path l st' := by
  intro pre
  induction pre with
  | nil =>
    intro st st' h l
    rw [walkDirList] at h
    injection h with h1 h2
    rw [List.nil_append, h1]
  | cons d1 rest ih =>
    intro st st' h l
    rw [walkDirList] at h
    rcases hg : walkDirGo T fn (joinPath path d1.name) d1 st with ⟨st1, e1⟩
    cases e1 with
    | some e =>
      rw [hg] at h
      simp at h
    | none =>
      rw [hg] at h
      rw [List.cons_append, walkDirList, hg]
      exact ih st1 st' h l

/-- In strict mode, the walk aborts at any unlistable directory node, at
any path, with the access error annotated by that node's path. -/
theorem walkDirGo_strict_listErr (T : Type) (cr : ConfigReader T) (readFile : ReadFileFn)
    (hstrict : cr.strictMode = true) (path name : GoStr) (infoRes : Except GoStr FileInfo)
    (entries : List FsEntry) (e : GoStr) (st : ScanState T) :
    walkDirGo T (scanRecursiveVisit T cr readFile) path
        (.node name true infoRes entries (some e)) st =
      (st, some (.accessFailed path e)) := by
  rw [walkDirGo]
  simp [scanRecursiveVisit, FsEntry.isDir, hstrict]

/-- C2 is false on the code for the flat mode: the flat scan's failure to
list the directory aborts the scan with an error even in lenient mode,
counting nothing and processing nothing further — and `ReadDirMap`
propagates that abort. -/
theorem c2_counterexample :
    lenientReader.strictMode = false ∧
    scanFlat Nat lenientReader okReadFile (str "/cfg") [] (some (str "permission denied"))
        (fun _ => none) ⟨0, 0, 0⟩ =
      ((fun _ => none), ⟨0, 0, 0⟩, some (.readDirFailed (str "permission denied"))) ∧
    ReadDirMap Nat lenientReader okReadFile (str "/cfg") lockedRootTree =
      (none, some (.readDirFailed (str "permission denied"))) :=
  ⟨rfl, rfl, rfl⟩

/-- C2 amended: in recursive mode, directory-level traversal errors follow
the strict/lenient split — lenient scans never abort (they count the error
and keep walking), and under strict mode the walk aborts with a
path-annotated access error at any unlistable directory: at the scan root,
at any node of the walk (at its own path), and — composing past an
error-free prefix of siblings — mid-walk below the root; in flat mode,
however, a failure to list the scan directory aborts the scan in both
modes.  Concrete conjuncts exhibit a lenient recursive scan stepping over
an unlistable subdirectory, counting one error and still loading the
sibling file, and a strict recursive scan aborting on that same non-root
subdirectory. -/
theorem c2_amended_traversal_errors :
    (∀ (T : Type) (cr : ConfigReader T) (readFile : ReadFileFn) (dirPath : GoStr)
        (files : List DirEntry) (e : GoStr) (configs : CfgMap T) (stats : ScanStats),
        scanFlat T cr readFile dirPath files (some e) configs stats =
          (configs, stats, some (.readDirFailed e))) ∧
    (∀ (T : Type) (cr : ConfigReader T) (readFile : ReadFileFn) (dirPath : GoStr)
        (root : FsEntry) (st : ScanState T), cr.strictMode = false →
        (scanRecursive T cr readFile dirPath root st).2 = none) ∧
    (∀ (T : Type) (cr : ConfigReader T) (readFile : ReadFileFn) (dirPath : GoStr)
        (root : FsEntry) (st : ScanState T) (e : GoStr), cr.strictMode = true →
        root.isDir = true → root.listErr = some e →
        scanRecursive T cr readFile dirPath root st =
          (st, some (.accessFailed dirPath e))) ∧
    (ReadDirMap Nat lenientRecReader okReadFile (str "/cfg") lockedSubTree).1.map
        (fun m => m (str "a")) = some (some 1) ∧
    (ReadDirMap Nat lenientRecReader okReadFile (str "/cfg") lockedSubTree).2 = none ∧
    (scanRecursive Nat lenientRecReader okReadFile (str "/cfg") lockedSubTree
        ((fun _ => none), ⟨0, 0, 0⟩)).1.2 = ⟨1, 0, 1⟩ ∧
    (∀ (T : Type) (cr : ConfigReader T) (readFile : ReadFileFn) (path name : GoStr)
        (infoRes : Except GoStr FileInfo) (entries : List FsEntry) (e : GoStr)
        (st : ScanState T), cr.strictMode = true →
        walkDirGo T (scanRecursiveVisit T cr readFile) path
            (.node name true infoRes entries (some e)) st =
          (st, some (.accessFailed path e))) ∧
    (∀ (T : Type) (cr : ConfigReader T) (readFile : ReadFileFn)
        (dirPath rname : GoStr) (rinfo : Except GoStr FileInfo) (pre : List FsEntry)
        (name : GoStr) (dinfo : Except GoStr FileInfo) (dentries : List FsEntry)
        (e : GoStr) (rest : List FsEntry) (st st' : ScanState T),
        cr.strictMode = true →
        walkDirList T (scanRecursiveVisit T cr readFile) dirPath pre st = (st', none) →
        scanRecursive T cr readFile dirPath
            (.node rname true rinfo
              (pre ++ .node name true dinfo dentries (some e) :: rest) none) st =
          (st', some (.accessFailed (joinPath dirPath name) e))) ∧
    ReadDirMap Nat strictRecReader okReadFile (str "/cfg") lockedSubTree =
      (none, some (.accessFailed (str "/cfg/locked") (str "permission denied"))) := by
  refine ⟨fun T cr readFile dirPath files e configs stats => rfl, ?_, ?_, rfl, rfl, rfl,
    ?_, ?_, rfl⟩
  · intro T cr readFile dirPath root st h
    rw [scanRecursive]
    apply walkDirGo_err_none
    intro p d e' st'
    cases e' with
    | some err => simp [scanRecursiveVisit, h]
    | none =>
      by_cases hd : d.isDir
      · simp [scanRecursiveVisit, hd]
      · rcases hp : processEntry T cr readFile (dirName p) d.toDirEntry st'.1 st'.2
          with ⟨cfgs, stats2, e2⟩
        have h2 := processEntry_err_none T cr readFile (dirName p) d.toDirEntry st'.1 st'.2 h
        rw [hp] at h2
        have h3 : e2 = none := h2
        simp [scanRecursiveVisit, hd, hp, h3]
  · intro T cr readFile dirPath root st e hstrict hdir hlist
    cases root with
    | node name isDir infoRes entries listErr =>
      simp only [FsEntry.isDir] at hdir
      simp only [FsEntry.listErr] at hlist
      rw [scanRecursive, walkDirGo]
      simp [scanRecursiveVisit, FsEntry.isDir, hstrict, hdir, hlist]
  · intro T cr readFile path name infoRes entries e st hstrict
    exact walkDirGo_strict_listErr T cr readFile hstrict path name infoRes entries e st
  · intro T cr readFile dirPath rname rinfo pre name dinfo dentries e rest st st'
      hstrict hpre
    have hw : scanRecursive T cr readFile dirPath
        (.node rname true rinfo
          (pre ++ .node name true dinfo dentries (some e) :: rest) none) st =
        walkDirList T (scanRecursiveVisit T cr readFile) dirPath
          (pre ++ .node name true dinfo dentries (some e) :: rest) st := by
      rw [scanRecursive, walkDirGo]
      simp [scanRecursiveVisit, FsEntry.isDir]
    rw [hw,
      walkDirList_append_none T (scanRecursiveVisit T cr readFile) dirPath pre st st' hpre]
    exact walkDirList_cons_err T (scanRecursiveVisit T cr readFile) dirPath
      (.node name true dinfo dentries (some e)) rest st' st'
      (.accessFailed (joinPath dirPath name) e)
      (walkDirGo_strict_listErr T cr readFile hstrict (joinPath dirPath name) name
        dinfo dentries e st')

/-- Witness for C2 at concrete readers and trees: a lenient recursive scan
of an unlistable root completes without error, a strict recursive scan of
the same root aborts with the access error, a flat scan aborts on the
listing failure, a strict walk aborts at a non-root unlistable node with
that node's path in the error, and a strict recursive scan whose first
child walks cleanly aborts at the unlistable second child mid-walk. -/
theorem c2_witness :
    (scanRecursive Nat lenientRecReader okReadFile (str "/cfg") lockedRootTree
        ((fun _ => none), ⟨0, 0, 0⟩)).2 = none ∧
    scanRecursive Nat strictRecReader okReadFile (str "/cfg") lockedRootTree
        ((fun _ => none), ⟨0, 0, 0⟩) =
      (((fun _ => none), ⟨0, 0, 0⟩),
        some (.accessFailed (str "/cfg") (str "permission denied"))) ∧
    scanFlat Nat strictReader okReadFile (str "/cfg") [] (some (str "permission denied"))
        (fun _ => none) ⟨0, 0, 0⟩ =
      ((fun _ => none), ⟨0, 0, 0⟩, some (.readDirFailed (str "permission denied"))) ∧
    walkDirGo Nat (scanRecursiveVisit Nat strictRecReader okReadFile) (str "/cfg/locked")
        (.node (str "locked") true (.ok ⟨str "locked", 0, true⟩) []
          (some (str "permission denied"))) ((fun _ => none), ⟨0, 0, 0⟩) =
      (((fun _ => none), ⟨0, 0, 0⟩),
        some (.accessFailed (str "/cfg/locked") (str "permission denied"))) ∧
    scanRecursive Nat strictRecReader okReadFile (str "/cfg")
        (.node (str "cfg") true (.ok ⟨str "cfg", 0, true⟩)
          ([fsGoodYaml] ++
            .node (str "locked") true (.ok ⟨str "locked", 0, true⟩) []
              (some (str "permission denied")) :: []) none)
        ((fun _ => none), ⟨0, 0, 0⟩) =
      (((fun k => if k = str "a" then some 1 else none), ⟨1, 0, 0⟩),
        some (.accessFailed (joinPath (str "/cfg") (str "locked"))
          (str "permission denied"))) :=
  ⟨c2_amended_traversal_errors.2.1 Nat lenientRecReader okReadFile (str "/cfg")
      lockedRootTree ((fun _ => none), ⟨0, 0, 0⟩) rfl,
   c2_amended_traversal_errors.2.2.1 Nat strictRecReader okReadFile (str "/cfg")
      lockedRootTree ((fun _ => none), ⟨0, 0, 0⟩) (str "permission denied") rfl rfl rfl,
   c2_amended_traversal_errors.1 Nat strictReader okReadFile (str "/cfg") []
      (str "permission denied") (fun _ => none) ⟨0, 0, 0⟩,
   c2_amended_traversal_errors.2.2.2.2.2.2.1 Nat strictRecReader okReadFile
      (str "/cfg/locked") (str "locked") (.ok ⟨str "locked", 0, true⟩) []
      (str "permission denied") ((fun _ => none), ⟨0, 0, 0⟩) rfl,
   c2_amended_traversal_errors.2.2.2.2.2.2.2.1 Nat strictRecReader okReadFile
      (str "/cfg") (str "cfg") (.ok ⟨str "cfg", 0, true⟩) [fsGoodYaml] (str "locked")
      (.ok ⟨str "locked", 0, true⟩) [] (str "permission denied") []
      ((fun _ => none), ⟨0, 0, 0⟩)
      ((fun k => if k = str "a" then some 1 else none), ⟨1, 0, 0⟩) rfl rfl⟩

/-! ## Claim C3 -/

/-- C3: scanning a directory holding a malformed `bad.yaml` (first in
traversal order) and a valid `a.yaml`: lenient mode completes, counting the
failure, and returns the map holding exactly the one successful entry;
strict mode aborts on the first error, returns the nil map, and wraps the
failing filename into the error. -/
theorem c3_strict_lenient_split :
    ReadDirMap Nat lenientReader scenarioReadFile (str "/cfg") mixedTree =
      (some (fun k => if k = str "a" then some 1 else none), none) ∧
    (scanFlat Nat lenientReader scenarioReadFile (str "/cfg")
        (mixedTree.entries.map FsEntry.toDirEntry) mixedTree.listErr
        (fun _ => none) ⟨0, 0, 0⟩).2.1 = ⟨1, 1, 1⟩ ∧
    ReadDirMap Nat strictReader scenarioReadFile (str "/cfg") mixedTree =
      (none, some (.processFailed (str "bad.yaml")
        (.parseError (str "yaml") (str "yaml syntax error")))) ∧
    (∀ (T : Type) (cr : ConfigReader T) (readFile : ReadFileFn) (dirPath : GoStr)
        (files : List DirEntry) (configs : CfgMap T) (stats : ScanStats),
        cr.strictMode = false →
        (scanFlat T cr readFile dirPath files none configs stats).2.2 = none) :=
  ⟨rfl, rfl, rfl,
   fun T cr readFile dirPath files configs stats h =>
     scanFlatLoop_err_none T cr readFile dirPath h files configs stats⟩

/-- Witness for C3: the lenient flat scan of the mixed directory completes
without a scan-aborting error. -/
theorem c3_witness :
    (scanFlat Nat lenientReader scenarioReadFile (str "/cfg")
        (mixedTree.entries.map FsEntry.toDirEntry) none (fun _ => none) ⟨0, 0, 0⟩).2.2 =
      none :=
  c3_strict_lenient_split.2.2.2 Nat lenientReader scenarioReadFile (str "/cfg")
    (mixedTree.entries.map FsEntry.toDirEntry) (fun _ => none) ⟨0, 0, 0⟩ rfl

/-! ## Claim C4 -/

/-- C4: when a successfully processed entry derives a logical name already
present in the result map, strict mode aborts with the duplicate-name error
naming that entry, while lenient mode overwrites the previous value
(last-write-wins).  Concretely, scanning a directory holding `svc.yaml`
and `svc.json` (both deriving `svc`): the lenient result map holds exactly
one entry for `svc`, the value of the later `svc.json`; strict mode aborts
on the second file with the duplicate-name error. -/
theorem c4_duplicate_names :
    (∀ (T : Type) (cr : ConfigReader T) (readFile : ReadFileFn) (parentDir : GoStr)
        (entry : DirEntry) (info : FileInfo) (configs : CfgMap T) (stats : ScanStats)
        (cfg : T) (nm : GoStr),
        entry.infoRes = .ok info →
        processFile T cr readFile (joinPath parentDir entry.name) info =
          ⟨some cfg, nm, none⟩ →
        (configs nm).isSome = true →
        (cr.strictMode = true →
            processEntry T cr readFile parentDir entry configs stats =
              (configs, stats, some (.duplicateName nm entry.name))) ∧
        (cr.strictMode = false →
            processEntry T cr readFile parentDir entry configs stats =
              ((fun k => if k = nm then some cfg else configs k),
               { stats with processed := stats.processed + 1 }, none))) ∧
    (ReadDirMap Nat lenientReader okReadFile (str "/cfg") dupTree).2 = none ∧
    (ReadDirMap Nat lenientReader okReadFile (str "/cfg") dupTree).1.map
        (fun m => m (str "svc")) = some (some 2) ∧
    (∀ k : GoStr, k ≠ str "svc" →
        (ReadDirMap Nat lenientReader okReadFile (str "/cfg") dupTree).1.map
          (fun m => m k) = some none) ∧
    ReadDirMap Nat strictReader okReadFile (str "/cfg") dupTree =
      (none, some (.duplicateName (str "svc") (str "svc.json"))) := by
  refine ⟨?_, rfl, rfl, ?_, rfl⟩
  · intro T cr readFile parentDir entry info configs stats cfg nm hinfo hproc hdup
    rw [processEntry, hinfo]
    simp only [hproc]
    constructor
    · intro hstrict
      simp [hdup, hstrict]
    · intro hstrict
      simp [hdup, hstrict]
  · intro k hk
    have hmap : (ReadDirMap Nat lenientReader okReadFile (str "/cfg") dupTree).1 =
        some (fun k => if k = str "svc" then some 2
          else if k = str "svc" then some 1 else none) := rfl
    rw [hmap]
    simp [hk]

/-- Witness for C4: the second `svc` file under the strict reader aborts
with the duplicate-name error; the lenient map of the duplicate scan holds
nothing under any other key. -/
theorem c4_witness :
    processEntry Nat strictReader okReadFile (str "/cfg") fsSvcJson.toDirEntry
        (fun k => if k = str "svc" then some 1 else none) ⟨1, 0, 0⟩ =
      ((fun k => if k = str "svc" then some 1 else none), ⟨1, 0, 0⟩,
        some (.duplicateName (str "svc") (str "svc.json"))) ∧
    (ReadDirMap Nat lenientReader okReadFile (str "/cfg") dupTree).1.map
      (fun m => m (str "other")) = some none :=
  ⟨((c4_duplicate_names.1 Nat strictReader okReadFile (str "/cfg") fsSvcJson.toDirEntry
      ⟨str "svc.json", 4, false⟩ (fun k => if k = str "svc" then some 1 else none)
      ⟨1, 0, 0⟩ 2 (str "svc") rfl rfl rfl).1 rfl),
   c4_duplicate_names.2.2.2.1 (str "other") (by decide)⟩

/-! ## Claim C10 -/

/-- C10: `ReadDirMap` returns exactly one of a map and an error — every
successful call (an empty scan included) returns a non-nil map with a nil
error, and every failing call (a strict abort included) returns the nil map
with a non-nil error; a partial map is never paired with an error. -/
theorem c10_map_xor_error (T : Type) (cr : ConfigReader T) (readFile : ReadFileFn)
    (dirPath : GoStr) (root : FsEntry) :
    (∃ m, ReadDirMap T cr readFile dirPath root = (some m, none)) ∨
    (∃ e, ReadDirMap T cr readFile dirPath root = (none, some e)) := by
  rw [ReadDirMap]
  repeat' split
  all_goals try dsimp only
  all_goals repeat' split
  all_goals
    first
      | exact Or.inr ⟨_, rfl⟩
      | exact Or.inl ⟨_, rfl⟩

end CfgReader

